import Mathlib

/-!
Shallow embedding of the waypaper daemon core (src/config.rs and
src/bin/daemon.rs): configuration parsing and reload, the output-descriptor
builder, the shared-buffer layout, the configure barrier, and the
compositing pass.  Pure Rust functions become Lean functions; the
lock-protected daemon `State` becomes an explicit state record with a step
function over protocol events; fallible Rust code (`?`, `unwrap`,
`Vec::remove` panics) returns `Option`/`Except`.
-/

namespace Waypaper

/-! ## Configuration model (src/config.rs) -/

/-- `config::Mode` (src/config.rs lines 191-197). -/
inductive Mode where
  | Center
  | Fill
  | Fit
  | Stretch
deriving DecidableEq, Repr

/-- `impl Default for Mode` (src/config.rs lines 214-218): default is `Fill`. -/
def Mode.default : Mode := Mode.Fill

/-- `impl FromStr for Mode` (src/config.rs lines 220-232); `Err(())` becomes `none`. -/
def Mode.from_str (s : String) : Option Mode :=
  if s = "center" then some Mode.Center
  else if s = "fill" then some Mode.Fill
  else if s = "fit" then some Mode.Fit
  else if s = "stretch" then some Mode.Stretch
  else none

/-- `config::OutputPreferences` (src/config.rs lines 185-189); paths are strings. -/
structure OutputPreferences where
  background : Option String
  mode : Mode
deriving DecidableEq, Repr

/-- One section of an ini file: `None` name is the unnamed general section. -/
structure IniSection where
  name : Option String
  props : List (String × String)
deriving DecidableEq, Repr

/-- `Properties::get`: first value stored under the key. -/
def propGet (props : List (String × String)) (k : String) : Option String :=
  (props.find? (fun p => p.1 = k)).map (fun p => p.2)

/-- `Ini::section(name)`: the first section carrying the given name. -/
def iniSection (config : List IniSection) (name : Option String) :
    Option (List (String × String)) :=
  (config.find? (fun s => s.name = name)).map (fun s => s.props)

/-- `HashMap::insert` on an association list: replaces the binding if the key
is present, otherwise appends it. -/
def hmInsert {α : Type} : List (String × α) → String → α → List (String × α)
  | [], k, v => [(k, v)]
  | (k', v') :: rest, k, v =>
      if k' = k then (k, v) :: rest else (k', v') :: hmInsert rest k v

/-- `HashMap::get` on an association list. -/
def hmGet {α : Type} : List (String × α) → String → Option α
  | [], _ => none
  | (k', v') :: rest, k => if k' = k then some v' else hmGet rest k

/-- The per-section body of `parse_config` (src/config.rs lines 164-180):
the section is re-fetched from the whole config by name, `background` is the
raw value of the `background` key, and `mode` is
`section.get("mode").map(Mode::from_str(..).ok()).flatten().unwrap_or_default()`. -/
def sectionPreferences (config : List IniSection) (output_name : String) :
    OutputPreferences :=
  let props := iniSection config (some output_name)
  { background := props.bind (fun ps => propGet ps "background")
    mode := ((props.bind (fun ps => propGet ps "mode")).bind Mode.from_str).getD
      Mode.default }

/-- One iteration of the `for_each` in `parse_config`: unnamed sections are
skipped, named ones insert their preferences. -/
def parseStep (config : List IniSection)
    (acc : List (String × OutputPreferences)) (s : IniSection) :
    List (String × OutputPreferences) :=
  match s.name with
  | none => acc
  | some output_name =>
      hmInsert acc output_name (sectionPreferences config output_name)

/-- `parse_config` (src/config.rs lines 158-183): iterate the named sections,
inserting an `OutputPreferences` entry per section name. -/
def parse_config (config : List IniSection) : List (String × OutputPreferences) :=
  config.foldl (parseStep config) []

/-- `config::Config` (src/config.rs lines 17-21). -/
structure Config where
  config_path : Option String
  output_preferences : Option (List (String × OutputPreferences))
deriving DecidableEq, Repr

/-- `Config::reload` (src/config.rs lines 97-111), state-passing form.
`loadFile` stands for `ini::Ini::load_from_file` (filesystem + ini crate,
external collaborators); a `none` result is a load error.  Returns the new
config plus the error, if any: on a load failure the early `?` return means
`output_preferences` is left untouched. -/
def Config.reload (loadFile : String → Option (List IniSection)) (c : Config) :
    Config × Option String :=
  match c.config_path with
  | none => (c, some "Config file not found")
  | some p =>
      match loadFile p with
      | none => (c, some "error loading config file")
      | some ini =>
          ({ c with output_preferences := some (parse_config ini) }, none)

/-! ## Image model (the `image` crate is an external collaborator) -/

/-- One pixel, red/green/blue channels. -/
structure Pixel where
  r : Nat
  g : Nat
  b : Nat
deriving DecidableEq, Repr

/-- A decoded raster image: dimensions plus a row-major pixel list. -/
structure Img where
  width : Nat
  height : Nat
  pixels : List Pixel
deriving DecidableEq, Repr

/-- Row-major pixel fetch, clamping out-of-range reads to black. -/
def samplePixel (img : Img) (x y : Nat) : Pixel :=
  img.pixels.getD (y * img.width + x) ⟨0, 0, 0⟩

/-- Modelled from the spec: `image` crate scaling is an external capability
("resize to WxH under policy P"); nearest-neighbour sampling stands in for the
Lanczos filter, while the output dimensions follow the library contract
(`resize_exact` yields exactly the target box). -/
def resizePixels (img : Img) (w h : Nat) : List Pixel :=
  (List.range h).flatMap (fun y =>
    (List.range w).map (fun x =>
      samplePixel img (x * img.width / w) (y * img.height / h)))

/-- `DynamicImage::resize_exact` (ignores aspect ratio): target dimensions. -/
def resize_exact (img : Img) (w h : Nat) : Img :=
  ⟨w, h, resizePixels img w h⟩

/-- Modelled from the spec: dimensions produced by aspect-preserving `resize`
into a bounding box (largest size fitting inside the box, library contract). -/
def fitDims (w h bw bh : Nat) : Nat × Nat :=
  if w * bh ≤ bw * h then
    (if h = 0 then 0 else w * bh / h, bh)
  else
    (bw, if w = 0 then 0 else h * bw / w)

/-- `DynamicImage::resize` (aspect-preserving, contained in the target box). -/
def resize (img : Img) (bw bh : Nat) : Img :=
  let d := fitDims img.width img.height bw bh
  ⟨d.1, d.2, resizePixels img d.1 d.2⟩

/-- Modelled from the spec: cover-then-center-crop sampling used by
`resize_to_fill` ("scale source to cover the target box exactly, cropping
overflow, preserving aspect ratio"). -/
def fillSample (img : Img) (w h x y : Nat) : Pixel :=
  let sw := img.width
  let sh := img.height
  if sw = 0 ∨ sh = 0 ∨ w = 0 ∨ h = 0 then ⟨0, 0, 0⟩
  else if sw * h ≤ w * sh then
    let ch := sh * w / sw
    let oy := (ch - h) / 2
    samplePixel img (x * sw / w) (if ch = 0 then 0 else (y + oy) * sh / ch)
  else
    let cw := sw * h / sh
    let ox := (cw - w) / 2
    samplePixel img (if cw = 0 then 0 else (x + ox) * sw / cw) (y * sh / h)

/-- `DynamicImage::resize_to_fill`: the result has exactly the target
dimensions (overflow is cropped). -/
def resize_to_fill (img : Img) (w h : Nat) : Img :=
  ⟨w, h,
    (List.range h).flatMap (fun y =>
      (List.range w).map (fun x => fillSample img w h x y))⟩

/-- `DynamicImage::new_rgba8`: a fully transparent canvas; the alpha channel
is dropped when flattened to RGB, leaving black. -/
def new_rgba8 (w h : Nat) : Img :=
  ⟨w, h, List.replicate (w * h) ⟨0, 0, 0⟩⟩

/-- `GenericImage::copy_from` (panics — here `none` — when the source sticks
out of the destination). -/
def copy_from (dst src : Img) (ox oy : Nat) : Option Img :=
  if ox + src.width ≤ dst.width ∧ oy + src.height ≤ dst.height then
    some ⟨dst.width, dst.height,
      (List.range dst.height).flatMap (fun y =>
        (List.range dst.width).map (fun x =>
          if ox ≤ x ∧ x < ox + src.width ∧ oy ≤ y ∧ y < oy + src.height then
            samplePixel src (x - ox) (y - oy)
          else
            samplePixel dst x y))⟩
  else none

/-- `apply_image_mode` (src/bin/daemon.rs lines 301-337).  The `Center` arm is
`todo!()`, a panic, modelled as `none`; the `Fit` arm builds an RGBA canvas and
copies the aspect-preserving resize into its center. -/
def apply_image_mode (image : Img) (mode : Mode) (target_width target_height : Nat) :
    Option Img :=
  match mode with
  | Mode.Fill => some (resize_to_fill image target_width target_height)
  | Mode.Center => none
  | Mode.Fit =>
      let resized_image := resize image target_width target_height
      copy_from (new_rgba8 target_width target_height) resized_image
        ((target_width - resized_image.width) / 2)
        ((target_height - resized_image.height) / 2)
  | Mode.Stretch => some (resize_exact image target_width target_height)

/-- `DynamicImage::to_rgb8().as_raw()`: the packed byte stream, three bytes
per pixel in red, green, blue order (the `image` crate's `Rgb8` layout),
row-major, no padding. -/
def Img.toRgb8Raw (img : Img) : List Nat :=
  img.pixels.flatMap (fun p => [p.r, p.g, p.b])

/-- `write_image` (src/bin/daemon.rs lines 276-289): apply the mode, convert
to packed RGB8 and write the raw bytes; `none` is the `todo!()` panic of the
`Center` arm (or a `copy_from` panic). -/
def write_image (image : Img) (mode : Mode) (width height : Nat) :
    Option (List Nat) :=
  (apply_image_mode image mode width height).map Img.toRgb8Raw

/-! ## Daemon state model (src/bin/daemon.rs) -/

/-- `Output` (src/bin/daemon.rs lines 339-346); the `wl_output` handle is a
protocol resource and is not part of the data model. -/
structure Output where
  name : String
  width : Nat
  height : Nat
  pixel_count : Nat
deriving DecidableEq, Repr

/-- `OutputBuilder` (src/bin/daemon.rs lines 348-354). -/
structure OutputBuilder where
  name : String
  width : Nat
  height : Nat
deriving DecidableEq, Repr

/-- `OutputBuilder::default()`: empty name, zero geometry. -/
def OutputBuilder.default : OutputBuilder := ⟨"", 0, 0⟩

/-- `OutputBuilder::build` (src/bin/daemon.rs lines 356-366): always succeeds,
`pixel_count = width * height`. -/
def OutputBuilder.build (b : OutputBuilder) : Output :=
  ⟨b.name, b.width, b.height, b.width * b.height⟩

/-- A `wl_output` event as seen by the dispatcher (src/bin/daemon.rs lines
464-521): `mode current w h` carries whether `flags == WEnum::Value(Current)`;
`other` covers the ignored variants. -/
inductive OutputEvent where
  | mode (current : Bool) (width height : Nat)
  | name (n : String)
  | done
  | other
deriving DecidableEq, Repr

/-- An event reaching the shared daemon state: a `wl_output` event for the
slot `id` it was bound with, or a layer-surface configure acknowledgment. -/
inductive DEvent where
  | output (id : Nat) (e : OutputEvent)
  | configureAck (surface : String)
deriving DecidableEq, Repr

/-- The daemon `State` (src/bin/daemon.rs lines 86-100), restricted to the
fields the core logic reads and writes.  `buffer_file_len` is the tempfile's
`set_len` size, `shm_pool_size` the shm pool's size, `surfaces` the key set of
the surfaces map.  `releases` counts `setup_buffers` invocations (the barrier
firing) and `acked` records which surface acknowledged each configure; both
are observers that no step reads. -/
structure DState where
  output_builders : List OutputBuilder
  outputs : List Output
  total_pixels : Nat
  max_buffer_size : Nat
  buffer_file_len : Option Nat
  shm_pool_size : Option Nat
  surfaces : List String
  surface_configured : Nat
  releases : Nat
  acked : List String
deriving DecidableEq, Repr

/-- `State::default()` as built by `State::new` (src/bin/daemon.rs 103-108). -/
def initState : DState :=
  ⟨[], [], 0, 0, none, none, [], 0, 0, []⟩

/-- `State::setup_buffer_file` (src/bin/daemon.rs lines 110-142): resize the
tempfile to `max(max_buffer_size, total_pixels * 3)`; then either resize the
existing shm pool to `total_pixels * 3` and raise `max_buffer_size`, or create
the pool at `total_pixels * 3`. -/
def setup_buffer_file (s : DState) : DState :=
  let s1 := { s with
    buffer_file_len := some (max s.max_buffer_size (s.total_pixels * 3)) }
  match s1.shm_pool_size with
  | some _ =>
      { s1 with
        shm_pool_size := some (s1.total_pixels * 3)
        max_buffer_size := max s1.max_buffer_size (s1.total_pixels * 3) }
  | none => { s1 with shm_pool_size := some (s1.total_pixels * 3) }

/-- The mutation a non-`Done` `wl_output` event applies to its builder
(src/bin/daemon.rs lines 464-481): a `Mode` event is ignored unless its flags
equal `Current`; `Name` overwrites the name; other events change nothing. -/
def builderApply (b : OutputBuilder) (e : OutputEvent) : OutputBuilder :=
  match e with
  | OutputEvent.mode current w h =>
      if current then { b with width := w, height := h } else b
  | OutputEvent.name n => { b with name := n }
  | OutputEvent.done => b
  | OutputEvent.other => b

/-- The builder-fetch prologue of the `wl_output` dispatcher (src/bin/daemon.rs
lines 456-462): `get_mut(output_id)` or push a default builder. -/
def ensureBuilder (bs : List OutputBuilder) (id : Nat) : List OutputBuilder :=
  if id < bs.length then bs else bs ++ [OutputBuilder.default]

/-- Index of the builder the prologue hands out: `output_id` when it exists,
otherwise the freshly pushed last element. -/
def fetchIdx (bs : List OutputBuilder) (id : Nat) : Nat :=
  if id < bs.length then id else bs.length

/-- In-place list update at an index. -/
def listModify {α : Type} (f : α → α) : Nat → List α → List α
  | _, [] => []
  | 0, x :: rest => f x :: rest
  | n + 1, x :: rest => x :: listModify f n rest

/-- One `wl_output` event against the daemon state (src/bin/daemon.rs lines
445-523).  On `Done` the builder at `output_id` is removed (`Vec::remove`
panics — `none` — when the index is out of range), built into an `Output`,
`total_pixels` grows, a surface keyed by the output name is inserted, the
output is appended, and `setup_buffer_file` runs. -/
def outputDispatch (s : DState) (id : Nat) (e : OutputEvent) : Option DState :=
  let j := fetchIdx s.output_builders id
  let bs := ensureBuilder s.output_builders id
  match e with
  | OutputEvent.done =>
      match bs.get? id with
      | some b =>
          let o := b.build
          let s1 := { s with
            output_builders := bs.eraseIdx id
            total_pixels := s.total_pixels + o.pixel_count
            surfaces :=
              if s.surfaces.contains o.name then s.surfaces
              else s.surfaces ++ [o.name]
            outputs := s.outputs ++ [o] }
          some (setup_buffer_file s1)
      | none => none
  | _ => some { s with output_builders := listModify (fun b => builderApply b e) j bs }

/-- A layer-surface `Configure` acknowledgment (src/bin/daemon.rs lines
417-443): bump the raw counter; when it equals the number of surfaces, run
`setup_buffers` (counted by `releases`). -/
def configureDispatch (s : DState) (surface : String) : DState :=
  let s1 := { s with
    surface_configured := s.surface_configured + 1
    acked := s.acked ++ [surface] }
  if s1.surfaces.length = s1.surface_configured then
    { s1 with releases := s1.releases + 1 }
  else s1

/-- One event against the locked daemon state. -/
def dstep (s : DState) : DEvent → Option DState
  | DEvent.output id e => outputDispatch s id e
  | DEvent.configureAck surface => some (configureDispatch s surface)

/-- Run a list of events, stopping at a panic. -/
def run (s : DState) : List DEvent → Option DState
  | [] => some s
  | e :: es =>
      match dstep s e with
      | some s1 => run s1 es
      | none => none

/-! ## Buffer layout (State::setup_buffers / State::setup_buffer) -/

/-- A region of the shared segment handed to one monitor's `wl_buffer`
(`create_buffer(offset, width, height, width * 3, Bgr888)`). -/
structure BufferRegion where
  name : String
  byte_offset : Nat
  byte_length : Nat
deriving DecidableEq, Repr

/-- The offset-accumulating loop of `State::setup_buffers` (src/bin/daemon.rs
lines 144-153): each output gets a region of `pixel_count * 3` bytes at the
running offset. -/
def regionsFrom (off : Nat) : List Output → List BufferRegion
  | [] => []
  | o :: rest =>
      ⟨o.name, off, o.pixel_count * 3⟩ :: regionsFrom (off + o.pixel_count * 3) rest

/-- Regions assigned by `State::setup_buffers`, in monitor arrival order. -/
def setup_buffers_regions (outputs : List Output) : List BufferRegion :=
  regionsFrom 0 outputs

/-- Tempfile capacity as a number (0 before the file exists). -/
def capa (s : DState) : Nat := s.buffer_file_len.getD 0

/-- Shm pool capacity as a number (0 before the pool exists). -/
def poolCap (s : DState) : Nat := s.shm_pool_size.getD 0

/-! ## Compositing pass (State::draw_all and helpers) -/

/-- `write_default_color` (src/bin/daemon.rs lines 291-299): a loop writing
`pixel_count` copies of the bytes `[0, 0, 0]`. -/
def write_default_color (output : Output) : List Nat :=
  (List.range output.pixel_count).foldl (fun acc _ => acc ++ [0, 0, 0]) []

/-- The per-output body of `State::draw_all` (src/bin/daemon.rs lines
204-233).  `fs` stands for `image::io::Reader::open(..).decode()` (filesystem
and decoder, external collaborators); `none` is an open/decode failure, which
the source propagates with `?`.  The solid-fill branch runs only when the
output has no entry or the entry has no background. -/
def paintOutput (fs : String → Option Img)
    (prefs : List (String × OutputPreferences)) (o : Output) :
    Except String (List Nat) :=
  match hmGet prefs o.name with
  | some pr =>
      match pr.background with
      | some bg =>
          match fs bg with
          | none => Except.error "image open or decode error"
          | some image =>
              match write_image image pr.mode o.width o.height with
              | some bytes => Except.ok bytes
              | none => Except.error "unimplemented mode"
      | none => Except.ok (write_default_color o)
  | none => Except.ok (write_default_color o)

/-- The output loop of `State::draw_all`: accumulate written bytes; a painting
error aborts the loop (the `?` in the source), keeping what was written. -/
def drawLoop (fs : String → Option Img)
    (prefs : List (String × OutputPreferences)) :
    List Output → List Nat → List Nat × Option String
  | [], acc => (acc, none)
  | o :: rest, acc =>
      match paintOutput fs prefs o with
      | Except.ok bytes => drawLoop fs prefs rest (acc ++ bytes)
      | Except.error e => (acc, some e)

/-- `State::draw_all` (src/bin/daemon.rs lines 191-252): paint every output in
arrival order from offset 0; returns the bytes written and the error that
aborted the pass, if any. -/
def draw_all (fs : String → Option Img)
    (prefs : List (String × OutputPreferences)) (outputs : List Output) :
    List Nat × Option String :=
  drawLoop fs prefs outputs []

/-! ## Reload coordination (State::handle and the receiver thread) -/

/-- `AppEvent` (the crate's event type). -/
inductive AppEvent where
  | ConfigChanged
  | OutputChanged
deriving DecidableEq, Repr

/-- `State::handle` (src/bin/daemon.rs lines 254-273), restricted to the
config it mutates: `ConfigChanged` runs `self.config.reload()?` then
`self.draw_all()?` (surface damage has no state effect here);
`OutputChanged` only logs. -/
def State.handle (loadFile : String → Option (List IniSection))
    (fs : String → Option Img) (outputs : List Output) (c : Config) :
    AppEvent → Except String Config
  | AppEvent.ConfigChanged =>
      match Config.reload loadFile c with
      | (_, some e) => Except.error e
      | (c1, none) =>
          match (draw_all fs (c1.output_preferences.getD []) outputs).2 with
          | some e => Except.error e
          | none => Except.ok c1
  | AppEvent.OutputChanged => Except.ok c

/-- The config event receiver thread body (src/bin/daemon.rs lines 49-61):
`state.lock().unwrap().handle(event).unwrap()` — an error from `handle` is
unwrapped, i.e. the thread panics (`none`). -/
def receiverStep (loadFile : String → Option (List IniSection))
    (fs : String → Option Img) (outputs : List Output) (c : Config)
    (event : AppEvent) : Option Config :=
  (State.handle loadFile fs outputs c event).toOption

/-! ## Derived observers used by the claims -/

/-- Accumulator step: remember the geometry of a `Current`-flagged mode event. -/
def geomUpd (acc : Option (Nat × Nat)) (e : OutputEvent) : Option (Nat × Nat) :=
  match e with
  | OutputEvent.mode true w h => some (w, h)
  | _ => acc

/-- Accumulator step: remember the name of a name event. -/
def nameUpd (acc : Option String) (e : OutputEvent) : Option String :=
  match e with
  | OutputEvent.name n => some n
  | _ => acc

/-- Last geometry carried by a `Current`-flagged mode event, if any. -/
def lastGeometry (es : List OutputEvent) : Option (Nat × Nat) :=
  es.foldl geomUpd none

/-- Last name carried by a name event, if any. -/
def lastName (es : List OutputEvent) : Option String :=
  es.foldl nameUpd none

/-- The exact-tiling property of claim C1 for a list of outputs and a total
byte count: regions are in arrival order, each starting where the previous
ended (offset = sum of earlier lengths), each `width * height * 3` bytes long,
and every byte below the total lies in exactly one region. -/
def tilesExactly (os : List Output) (total : Nat) : Prop :=
  (setup_buffers_regions os).length = os.length ∧
  (∀ i, i < os.length →
    ∃ r o, (setup_buffers_regions os).get? i = some r ∧ os.get? i = some o ∧
      r.byte_offset =
        (((setup_buffers_regions os).take i).map (fun x => x.byte_length)).sum ∧
      r.byte_length = o.width * o.height * 3) ∧
  ((setup_buffers_regions os).map (fun x => x.byte_length)).sum = total ∧
  (∀ b, b < total → ∃! i, ∃ r, (setup_buffers_regions os).get? i = some r ∧
    r.byte_offset ≤ b ∧ b < r.byte_offset + r.byte_length)

/-- The state invariant maintained by every daemon step: outputs carry
consistent pixel counts, `total_pixels` is their sum, and the tempfile and
pool sizes equal `3 * total_pixels` whenever they exist. -/
structure Inv (s : DState) : Prop where
  pc : ∀ o ∈ s.outputs, o.pixel_count = o.width * o.height
  tot : s.total_pixels = (s.outputs.map (fun o => o.pixel_count)).sum
  mbs : s.max_buffer_size ≤ s.total_pixels * 3
  file : ∀ v, s.buffer_file_len = some v → v = s.total_pixels * 3
  pool : ∀ p, s.shm_pool_size = some p → p = s.total_pixels * 3
  fileN : s.buffer_file_len = none → s.total_pixels = 0
  poolN : s.shm_pool_size = none → s.total_pixels = 0

/-! ## Association-list lemmas -/

theorem hmGet_hmInsert_self {α : Type} (m : List (String × α)) (k : String) (v : α) :
    hmGet (hmInsert m k v) k = some v := by
  induction m with
  | nil => simp [hmInsert, hmGet]
  | cons p rest ih =>
      obtain ⟨k', v'⟩ := p
      by_cases h : k' = k
      · simp [hmInsert, h, hmGet]
      · simp [hmInsert, h, hmGet, ih]

theorem hmGet_hmInsert_ne {α : Type} (m : List (String × α)) (k k' : String) (v : α)
    (h : k' ≠ k) : hmGet (hmInsert m k v) k' = hmGet m k' := by
  have hne : k ≠ k' := Ne.symm h
  induction m with
  | nil => simp [hmInsert, hmGet, hne]
  | cons p rest ih =>
      obtain ⟨k₀, v₀⟩ := p
      by_cases h0 : k₀ = k
      · subst h0
        simp [hmInsert, hmGet, hne]
      · simp [hmInsert, h0, hmGet, ih]

/-! ## Config parsing lemmas (claim C10) -/

theorem parse_config_foldl_get (config : List IniSection) (n : String) :
    ∀ (l : List IniSection) (acc : List (String × OutputPreferences)),
      hmGet (l.foldl (parseStep config) acc) n =
        if some n ∈ l.map IniSection.name then
          some (sectionPreferences config n)
        else hmGet acc n := by
  intro l
  induction l with
  | nil => intro acc; simp
  | cons s rest ih =>
      intro acc
      rw [List.foldl_cons, ih]
      by_cases hrest : some n ∈ rest.map IniSection.name
      · simp [hrest]
      · cases hs : s.name with
        | none =>
            have hmem : (some n ∈ (s :: rest).map IniSection.name) ↔
                (some n ∈ rest.map IniSection.name) := by
              simp [hs]
            simp [hrest, hmem, parseStep, hs]
        | some m =>
            by_cases hm : m = n
            · have hmem : some n ∈ (s :: rest).map IniSection.name := by
                simp [hs, hm]
              simp [hrest, hmem, parseStep, hs, hm, hmGet_hmInsert_self]
            · have hnot : ¬ some n ∈ (s :: rest).map IniSection.name := by
                simp only [List.map_cons, List.mem_cons, hs, Option.some.injEq]
                rintro (hh | hh)
                · exact hm hh.symm
                · exact hrest hh
              rw [if_neg hnot]
              simp [hrest, parseStep, hs, hmGet_hmInsert_ne _ _ _ _ (Ne.symm hm)]

theorem parse_config_get (config : List IniSection) (n : String)
    (h : some n ∈ config.map IniSection.name) :
    hmGet (parse_config config) n = some (sectionPreferences config n) := by
  rw [parse_config, parse_config_foldl_get config n config []]
  simp [h]

/-- C10: Config parsing is total over named sections and the mode key: every
named section yields an `OutputPreferences` entry in the parsed map, and that
entry's mode is `Fill` whenever the section's `mode` key is absent, and also
whenever its value is not exactly one of "center", "fill", "fit", "stretch"
(unrecognized modes silently fall back to the default `Fill`). -/
theorem claim_C10 (config : List IniSection) (n : String)
    (h : some n ∈ config.map IniSection.name) :
    hmGet (parse_config config) n = some (sectionPreferences config n) ∧
    (((iniSection config (some n)).bind (fun ps => propGet ps "mode")) = none →
      (sectionPreferences config n).mode = Mode.Fill) ∧
    (∀ v, ((iniSection config (some n)).bind (fun ps => propGet ps "mode")) = some v →
      v ∉ (["center", "fill", "fit", "stretch"] : List String) →
      (sectionPreferences config n).mode = Mode.Fill) := by
  refine ⟨parse_config_get config n h, ?_, ?_⟩
  · intro hnone
    simp [sectionPreferences, hnone, Mode.default]
  · intro v hv hnotin
    simp only [List.mem_cons, List.mem_singleton, not_or] at hnotin
    obtain ⟨h1, h2, h3, h4⟩ := hnotin
    simp [sectionPreferences, hv, Mode.from_str, h1, h2, h3, h4, Mode.default]

/-- Witness for C10 at a concrete config: one section named "HDMI-1" whose
mode value "bogus" is unrecognized; the parsed entry exists and its mode
falls back to `Fill`. -/
theorem claim_C10_witness :
    hmGet (parse_config [⟨some "HDMI-1", [("mode", "bogus")]⟩]) "HDMI-1" =
      some (sectionPreferences [⟨some "HDMI-1", [("mode", "bogus")]⟩] "HDMI-1") ∧
    (((iniSection [⟨some "HDMI-1", [("mode", "bogus")]⟩] (some "HDMI-1")).bind
        (fun ps => propGet ps "mode")) = none →
      (sectionPreferences [⟨some "HDMI-1", [("mode", "bogus")]⟩] "HDMI-1").mode =
        Mode.Fill) ∧
    (∀ v, ((iniSection [⟨some "HDMI-1", [("mode", "bogus")]⟩] (some "HDMI-1")).bind
        (fun ps => propGet ps "mode")) = some v →
      v ∉ (["center", "fill", "fit", "stretch"] : List String) →
      (sectionPreferences [⟨some "HDMI-1", [("mode", "bogus")]⟩] "HDMI-1").mode =
        Mode.Fill) :=
  claim_C10 [⟨some "HDMI-1", [("mode", "bogus")]⟩] "HDMI-1" (by simp)

/-! ## Solid-fill lemmas (claim C9) -/

theorem foldl_append_repeat (zs : List Nat) :
    ∀ (l : List Nat) (acc : List Nat),
      l.foldl (fun a _ => a ++ zs) acc = acc ++ (List.replicate l.length zs).flatten := by
  intro l
  induction l with
  | nil => intro acc; simp
  | cons x rest ih =>
      intro acc
      rw [List.foldl_cons, ih]
      simp [List.replicate_succ, List.append_assoc]

theorem flatten_replicate_zeros :
    ∀ n : Nat, (List.replicate n ([0, 0, 0] : List Nat)).flatten =
      List.replicate (n * 3) (0 : Nat) := by
  intro n
  induction n with
  | zero => simp
  | succ m ih =>
      rw [List.replicate_succ, List.flatten_cons, ih]
      have : (m + 1) * 3 = 3 + m * 3 := by ring
      rw [this, List.replicate_add]
      rfl

/-- C9: Painting a monitor with no configured background writes exactly
`pixel_count` repetitions of the 3-byte value `(0,0,0)`: the produced byte
list is `pixel_count` copies of `[0,0,0]`, i.e. `pixel_count * 3` zero
bytes — the whole region is filled with zeros. -/
theorem claim_C9 (output : Output) :
    write_default_color output =
      (List.replicate output.pixel_count ([0, 0, 0] : List Nat)).flatten ∧
    write_default_color output = List.replicate (output.pixel_count * 3) (0 : Nat) ∧
    (write_default_color output).length = output.pixel_count * 3 ∧
    ∀ x ∈ write_default_color output, x = 0 := by
  have h1 : write_default_color output =
      (List.replicate output.pixel_count ([0, 0, 0] : List Nat)).flatten := by
    rw [write_default_color, foldl_append_repeat]
    simp
  have h2 : write_default_color output =
      List.replicate (output.pixel_count * 3) (0 : Nat) := by
    rw [h1, flatten_replicate_zeros]
  refine ⟨h1, h2, ?_, ?_⟩
  · rw [h2]; simp
  · intro x hx
    rw [h2] at hx
    exact List.eq_of_mem_replicate hx

/-! ## Region layout lemmas (claims C1 and C8) -/

theorem regionsFrom_length (os : List Output) :
    ∀ off, (regionsFrom off os).length = os.length := by
  induction os with
  | nil => intro off; simp [regionsFrom]
  | cons o rest ih => intro off; simp [regionsFrom, ih]

theorem regionsFrom_map_len (os : List Output) :
    ∀ off, (regionsFrom off os).map (fun r => r.byte_length) =
      os.map (fun o => o.pixel_count * 3) := by
  induction os with
  | nil => intro off; simp [regionsFrom]
  | cons o rest ih => intro off; simp [regionsFrom, ih]

theorem sum_map_pc3 (os : List Output) :
    (os.map (fun o => o.pixel_count * 3)).sum =
      (os.map (fun o => o.pixel_count)).sum * 3 := by
  induction os with
  | nil => simp
  | cons o rest ih => simp [ih, Nat.add_mul]

theorem regionsFrom_get (os : List Output) :
    ∀ off i, i < os.length →
      ∃ o, os.get? i = some o ∧ (regionsFrom off os).get? i =
        some ⟨o.name, off + ((os.take i).map (fun x => x.pixel_count * 3)).sum,
          o.pixel_count * 3⟩ := by
  induction os with
  | nil => intro off i hi; simp at hi
  | cons o rest ih =>
      intro off i hi
      cases i with
      | zero => exact ⟨o, by simp [regionsFrom]⟩
      | succ j =>
          have hj : j < rest.length := by simpa using hi
          obtain ⟨o', ho', hr'⟩ := ih (off + o.pixel_count * 3) j hj
          refine ⟨o', by simpa using ho', ?_⟩
          simp only [regionsFrom, List.get?_cons_succ, hr', List.take_succ_cons,
            List.map_cons, List.sum_cons]
          congr 2
          omega

theorem regionsFrom_bounds (os : List Output) :
    ∀ off i r, (regionsFrom off os).get? i = some r →
      off ≤ r.byte_offset ∧
      r.byte_offset + r.byte_length ≤
        off + ((os.map (fun o => o.pixel_count * 3)).sum) := by
  induction os with
  | nil => intro off i r hr; simp [regionsFrom] at hr
  | cons o rest ih =>
      intro off i r hr
      cases i with
      | zero =>
          simp only [regionsFrom, List.get?_cons_zero, Option.some.injEq] at hr
          subst hr
          simp only [List.map_cons, List.sum_cons]
          omega
      | succ j =>
          simp only [regionsFrom, List.get?_cons_succ] at hr
          have := ih (off + o.pixel_count * 3) j r hr
          simp only [List.map_cons, List.sum_cons]
          omega

theorem regionsFrom_cover (os : List Output) :
    ∀ off b, off ≤ b →
      b < off + ((os.map (fun o => o.pixel_count * 3)).sum) →
      ∃! i, ∃ r, (regionsFrom off os).get? i = some r ∧
        r.byte_offset ≤ b ∧ b < r.byte_offset + r.byte_length := by
  induction os with
  | nil =>
      intro off b hb1 hb2
      simp only [List.map_nil, List.sum_nil, Nat.add_zero] at hb2
      omega
  | cons o rest ih =>
      intro off b hb1 hb2
      by_cases hb : b < off + o.pixel_count * 3
      · refine ⟨0, ⟨⟨o.name, off, o.pixel_count * 3⟩, by simp [regionsFrom], hb1, hb⟩, ?_⟩
        intro j hj
        obtain ⟨r, hr, hr1, hr2⟩ := hj
        cases j with
        | zero => rfl
        | succ k =>
            simp only [regionsFrom, List.get?_cons_succ] at hr
            have hbd := regionsFrom_bounds rest (off + o.pixel_count * 3) k r hr
            omega
      · have hb2' : b < (off + o.pixel_count * 3) +
            ((rest.map (fun x => x.pixel_count * 3)).sum) := by
          simp only [List.map_cons, List.sum_cons] at hb2
          omega
        obtain ⟨i, hex, huniq⟩ := ih (off + o.pixel_count * 3) b (by omega) hb2'
        refine ⟨i + 1, ?_, ?_⟩
        · obtain ⟨r, hr, hr1, hr2⟩ := hex
          exact ⟨r, by simpa [regionsFrom] using hr, hr1, hr2⟩
        · intro j hj
          obtain ⟨r, hr, hr1, hr2⟩ := hj
          cases j with
          | zero =>
              simp only [regionsFrom, List.get?_cons_zero, Option.some.injEq] at hr
              subst hr
              simp only at hr1 hr2
              omega
          | succ k =>
              simp only [regionsFrom, List.get?_cons_succ] at hr
              have : k = i := huniq k ⟨r, hr, hr1, hr2⟩
              omega

/-! ## State invariant lemmas -/

theorem inv_init : Inv initState := by
  constructor <;> simp [initState]

theorem configureDispatch_fields (s : DState) (surf : String) :
    (configureDispatch s surf).outputs = s.outputs ∧
    (configureDispatch s surf).total_pixels = s.total_pixels ∧
    (configureDispatch s surf).max_buffer_size = s.max_buffer_size ∧
    (configureDispatch s surf).buffer_file_len = s.buffer_file_len ∧
    (configureDispatch s surf).shm_pool_size = s.shm_pool_size := by
  by_cases hc : s.surfaces.length = s.surface_configured + 1 <;>
    simp [configureDispatch, hc]

theorem inv_setup_after_done (s : DState) (hInv : Inv s) (b : OutputBuilder)
    (bs' : List OutputBuilder) (surf' : List String) :
    Inv (setup_buffer_file { s with
      output_builders := bs'
      total_pixels := s.total_pixels + b.build.pixel_count
      surfaces := surf'
      outputs := s.outputs ++ [b.build] }) := by
  have htot : s.total_pixels ≤ s.total_pixels + b.build.pixel_count := Nat.le_add_right _ _
  have hmbs : s.max_buffer_size ≤ (s.total_pixels + b.build.pixel_count) * 3 := by
    have := hInv.mbs
    omega
  have hmax : max s.max_buffer_size ((s.total_pixels + b.build.pixel_count) * 3) =
      (s.total_pixels + b.build.pixel_count) * 3 := Nat.max_eq_right hmbs
  unfold setup_buffer_file
  cases hp : s.shm_pool_size with
  | none =>
      constructor <;> simp [hp, hmax, hmbs]
      · intro o ho
        rcases ho with ho | ho
        · exact hInv.pc o ho
        · subst ho; rfl
      · have := hInv.tot
        simp [this]
  | some p =>
      constructor <;> simp [hp, hmax, hmbs]
      · intro o ho
        rcases ho with ho | ho
        · exact hInv.pc o ho
        · subst ho; rfl
      · have := hInv.tot
        simp [this]

theorem dstep_inv {s s' : DState} {e : DEvent} (hInv : Inv s)
    (h : dstep s e = some s') : Inv s' := by
  cases e with
  | configureAck surf =>
      simp only [dstep, Option.some.injEq] at h
      subst h
      obtain ⟨h1, h2, h3, h4, h5⟩ := configureDispatch_fields s surf
      exact ⟨h1 ▸ hInv.pc, by rw [h1, h2]; exact hInv.tot, by rw [h2, h3]; exact hInv.mbs,
        by rw [h2, h4]; exact hInv.file, by rw [h2, h5]; exact hInv.pool,
        by rw [h2, h4]; exact hInv.fileN, by rw [h2, h5]; exact hInv.poolN⟩
  | output id e' =>
      cases e' with
      | done =>
          simp only [dstep, outputDispatch] at h
          cases hbs : (ensureBuilder s.output_builders id).get? id with
          | none => rw [hbs] at h; exact absurd h (by simp)
          | some b =>
              rw [hbs] at h
              simp only [Option.some.injEq] at h
              subst h
              exact inv_setup_after_done s hInv b _ _
      | mode current w h' =>
          simp only [dstep, outputDispatch, Option.some.injEq] at h
          subst h
          exact ⟨hInv.pc, hInv.tot, hInv.mbs, hInv.file, hInv.pool, hInv.fileN, hInv.poolN⟩
      | name n =>
          simp only [dstep, outputDispatch, Option.some.injEq] at h
          subst h
          exact ⟨hInv.pc, hInv.tot, hInv.mbs, hInv.file, hInv.pool, hInv.fileN, hInv.poolN⟩
      | other =>
          simp only [dstep, outputDispatch, Option.some.injEq] at h
          subst h
          exact ⟨hInv.pc, hInv.tot, hInv.mbs, hInv.file, hInv.pool, hInv.fileN, hInv.poolN⟩

theorem run_inv : ∀ (es : List DEvent) (s s' : DState), Inv s →
    run s es = some s' → Inv s' := by
  intro es
  induction es with
  | nil =>
      intro s s' hInv h
      simp only [run, Option.some.injEq] at h
      exact h ▸ hInv
  | cons e rest ih =>
      intro s s' hInv h
      simp only [run] at h
      cases hd : dstep s e with
      | none => rw [hd] at h; exact absurd h (by simp)
      | some s1 => rw [hd] at h; exact ih s1 s' (dstep_inv hInv hd) h

theorem reachable_inv {es : List DEvent} {s : DState}
    (h : run initState es = some s) : Inv s :=
  run_inv es initState s inv_init h

/-! ## Claim C1: exact tiling of the shared byte range -/

/-- C1: After any sequence of monitor registrations (any run of the daemon
event step from the initial state), the buffer regions assigned by
`setup_buffers` exactly tile `[0, total_pixels * 3)` in monitor arrival
order: region `i` starts at the sum of the byte lengths of regions `0..i-1`,
each region is `width * height * 3` bytes long, the lengths sum to the total,
and every byte below the total lies in exactly one region. -/
theorem claim_C1 (es : List DEvent) (s : DState)
    (h : run initState es = some s) :
    tilesExactly s.outputs (s.total_pixels * 3) := by
  have hInv := reachable_inv h
  have hos : (s.outputs.map (fun o => o.pixel_count * 3)).sum = s.total_pixels * 3 := by
    rw [sum_map_pc3, ← hInv.tot]
  have hsum : ((setup_buffers_regions s.outputs).map (fun x => x.byte_length)).sum =
      s.total_pixels * 3 := by
    rw [setup_buffers_regions, regionsFrom_map_len, hos]
  refine ⟨regionsFrom_length s.outputs 0, ?_, hsum, ?_⟩
  · intro i hi
    obtain ⟨o, ho, hr⟩ := regionsFrom_get s.outputs 0 i hi
    refine ⟨_, o, hr, ho, ?_, ?_⟩
    · have hmap : ((setup_buffers_regions s.outputs).take i).map (fun x => x.byte_length) =
          (s.outputs.take i).map (fun x => x.pixel_count * 3) := by
        rw [setup_buffers_regions, List.map_take, regionsFrom_map_len, ← List.map_take]
      simp [hmap]
    · have hopc : o.pixel_count = o.width * o.height := by
        refine hInv.pc o ?_
        exact List.get?_mem ho
      simp [hopc]
  · intro b hb
    exact regionsFrom_cover s.outputs 0 b (Nat.zero_le b) (by omega)

/-- Witness for C1: registering a single 1x2 monitor named "A" yields a state
whose regions exactly tile `[0, 6)`. -/
theorem claim_C1_witness :
    tilesExactly [⟨"A", 1, 2, 2⟩] 6 :=
  claim_C1
    [DEvent.output 0 (OutputEvent.name "A"),
     DEvent.output 0 (OutputEvent.mode true 1 2),
     DEvent.output 0 OutputEvent.done]
    ⟨[], [⟨"A", 1, 2, 2⟩], 2, 0, some 6, some 6, ["A"], 0, 0, []⟩
    (by rfl)

/-! ## Claim C8: capacity monotonicity -/

theorem dstep_caps {s s' : DState} {e : DEvent} (hInv : Inv s)
    (h : dstep s e = some s') :
    s.total_pixels ≤ s'.total_pixels ∧
    (s'.buffer_file_len = s.buffer_file_len ∨
      s'.buffer_file_len = some (s'.total_pixels * 3)) ∧
    (s'.shm_pool_size = s.shm_pool_size ∨
      s'.shm_pool_size = some (s'.total_pixels * 3)) := by
  cases e with
  | configureAck surf =>
      simp only [dstep, Option.some.injEq] at h
      subst h
      obtain ⟨_, h2, _, h4, h5⟩ := configureDispatch_fields s surf
      exact ⟨Nat.le_of_eq h2.symm, Or.inl h4, Or.inl h5⟩
  | output id e' =>
      cases e' with
      | done =>
          simp only [dstep, outputDispatch] at h
          cases hbs : (ensureBuilder s.output_builders id).get? id with
          | none => rw [hbs] at h; exact absurd h (by simp)
          | some b =>
              rw [hbs] at h
              simp only [Option.some.injEq] at h
              subst h
              have hmbs2 : s.max_buffer_size ≤
                  (s.total_pixels + b.build.pixel_count) * 3 := by
                have := hInv.mbs; omega
              have hmax : max s.max_buffer_size
                  ((s.total_pixels + b.build.pixel_count) * 3) =
                  (s.total_pixels + b.build.pixel_count) * 3 := Nat.max_eq_right hmbs2
              unfold setup_buffer_file
              cases hp : s.shm_pool_size with
              | none => simp [hp, hmax]
              | some p => simp [hp, hmax]
      | mode current w h' =>
          simp only [dstep, outputDispatch, Option.some.injEq] at h
          subst h
          exact ⟨Nat.le_refl _, Or.inl rfl, Or.inl rfl⟩
      | name n =>
          simp only [dstep, outputDispatch, Option.some.injEq] at h
          subst h
          exact ⟨Nat.le_refl _, Or.inl rfl, Or.inl rfl⟩
      | other =>
          simp only [dstep, outputDispatch, Option.some.injEq] at h
          subst h
          exact ⟨Nat.le_refl _, Or.inl rfl, Or.inl rfl⟩

theorem inv_capacity (s : DState) (hInv : Inv s) :
    ((setup_buffers_regions s.outputs).map (fun r => r.byte_length)).sum ≤ capa s ∧
    ((setup_buffers_regions s.outputs).map (fun r => r.byte_length)).sum ≤ poolCap s ∧
    (∀ i r, (setup_buffers_regions s.outputs).get? i = some r →
      r.byte_offset + r.byte_length ≤ capa s ∧
      r.byte_offset + r.byte_length ≤ poolCap s) := by
  have hos : (s.outputs.map (fun o => o.pixel_count * 3)).sum = s.total_pixels * 3 := by
    rw [sum_map_pc3, ← hInv.tot]
  have hsum : ((setup_buffers_regions s.outputs).map (fun r => r.byte_length)).sum =
      s.total_pixels * 3 := by
    rw [setup_buffers_regions, regionsFrom_map_len, hos]
  have hcapa : s.total_pixels * 3 ≤ capa s := by
    cases hf : s.buffer_file_len with
    | none => have := hInv.fileN hf; simp [capa, hf, this]
    | some v => have := hInv.file v hf; simp [capa, hf, this]
  have hpool : s.total_pixels * 3 ≤ poolCap s := by
    cases hf : s.shm_pool_size with
    | none => have := hInv.poolN hf; simp [poolCap, hf, this]
    | some v => have := hInv.pool v hf; simp [poolCap, hf, this]
  refine ⟨by omega, by omega, ?_⟩
  intro i r hr
  have hbd := regionsFrom_bounds s.outputs 0 i r hr
  rw [hos] at hbd
  omega

/-- C8: Across every daemon operation the shared segment's capacities (the
tempfile length and the shm pool size) never decrease, and after any step
both capacities are at least the sum of the byte lengths of all active
regions; in particular every assigned region's exclusive byte range
`[offset, offset + length)` stays inside both capacities. -/
theorem claim_C8 (es : List DEvent) (e : DEvent) (s s' : DState)
    (h : run initState es = some s) (h2 : dstep s e = some s') :
    capa s ≤ capa s' ∧ poolCap s ≤ poolCap s' ∧
    ((setup_buffers_regions s'.outputs).map (fun r => r.byte_length)).sum ≤ capa s' ∧
    ((setup_buffers_regions s'.outputs).map (fun r => r.byte_length)).sum ≤ poolCap s' ∧
    (∀ i r, (setup_buffers_regions s'.outputs).get? i = some r →
      r.byte_offset + r.byte_length ≤ capa s' ∧
      r.byte_offset + r.byte_length ≤ poolCap s') := by
  have hInv := reachable_inv h
  obtain ⟨htot, hfile, hpool⟩ := dstep_caps hInv h2
  obtain ⟨hc1, hc2, hc3⟩ := inv_capacity s' (dstep_inv hInv h2)
  have hcs : capa s ≤ s.total_pixels * 3 := by
    cases hf : s.buffer_file_len with
    | none => simp [capa, hf]
    | some v => have := hInv.file v hf; simp [capa, hf, this]
  have hps : poolCap s ≤ s.total_pixels * 3 := by
    cases hf : s.shm_pool_size with
    | none => simp [poolCap, hf]
    | some v => have := hInv.pool v hf; simp [poolCap, hf, this]
  have hmono1 : capa s ≤ capa s' := by
    rcases hfile with hf | hf
    · simp [capa, hf]
    · have hcap : capa s' = s'.total_pixels * 3 := by simp [capa, hf]
      omega
  have hmono2 : poolCap s ≤ poolCap s' := by
    rcases hpool with hf | hf
    · simp [poolCap, hf]
    · have hcap : poolCap s' = s'.total_pixels * 3 := by simp [poolCap, hf]
      omega
  exact ⟨hmono1, hmono2, hc1, hc2, hc3⟩

/-- Witness for C8: from the state after registering monitor "A" (1x2), a
configure acknowledgment leaves both capacities at 6 bytes, covering the
single 6-byte region. -/
theorem claim_C8_witness :
    capa ⟨[], [⟨"A", 1, 2, 2⟩], 2, 0, some 6, some 6, ["A"], 0, 0, []⟩ ≤
      capa ⟨[], [⟨"A", 1, 2, 2⟩], 2, 0, some 6, some 6, ["A"], 1, 1, ["A"]⟩ ∧
    poolCap ⟨[], [⟨"A", 1, 2, 2⟩], 2, 0, some 6, some 6, ["A"], 0, 0, []⟩ ≤
      poolCap ⟨[], [⟨"A", 1, 2, 2⟩], 2, 0, some 6, some 6, ["A"], 1, 1, ["A"]⟩ ∧
    ((setup_buffers_regions [⟨"A", 1, 2, 2⟩]).map (fun r => r.byte_length)).sum ≤
      capa ⟨[], [⟨"A", 1, 2, 2⟩], 2, 0, some 6, some 6, ["A"], 1, 1, ["A"]⟩ ∧
    ((setup_buffers_regions [⟨"A", 1, 2, 2⟩]).map (fun r => r.byte_length)).sum ≤
      poolCap ⟨[], [⟨"A", 1, 2, 2⟩], 2, 0, some 6, some 6, ["A"], 1, 1, ["A"]⟩ ∧
    (∀ i r, (setup_buffers_regions [⟨"A", 1, 2, 2⟩]).get? i = some r →
      r.byte_offset + r.byte_length ≤
        capa ⟨[], [⟨"A", 1, 2, 2⟩], 2, 0, some 6, some 6, ["A"], 1, 1, ["A"]⟩ ∧
      r.byte_offset + r.byte_length ≤
        poolCap ⟨[], [⟨"A", 1, 2, 2⟩], 2, 0, some 6, some 6, ["A"], 1, 1, ["A"]⟩) :=
  claim_C8
    [DEvent.output 0 (OutputEvent.name "A"),
     DEvent.output 0 (OutputEvent.mode true 1 2),
     DEvent.output 0 OutputEvent.done]
    (DEvent.configureAck "A")
    ⟨[], [⟨"A", 1, 2, 2⟩], 2, 0, some 6, some 6, ["A"], 0, 0, []⟩
    ⟨[], [⟨"A", 1, 2, 2⟩], 2, 0, some 6, some 6, ["A"], 1, 1, ["A"]⟩
    (by rfl) (by rfl)

/-! ## Builder accumulation lemmas (claims C6 and C4) -/

theorem geomUpd_foldl (es : List OutputEvent) :
    ∀ acc : Option (Nat × Nat),
      es.foldl geomUpd acc =
        match lastGeometry es with
        | some q => some q
        | none => acc := by
  induction es with
  | nil => intro acc; simp [lastGeometry]
  | cons e rest ih =>
      intro acc
      rw [List.foldl_cons, ih]
      have hR : lastGeometry (e :: rest) =
          match lastGeometry rest with
          | some q => some q
          | none => geomUpd none e := by
        rw [lastGeometry, List.foldl_cons, ih]
      rw [hR]
      cases hL : lastGeometry rest with
      | some q => simp
      | none =>
          cases e with
          | mode current w h => cases current <;> simp [geomUpd]
          | name n => simp [geomUpd]
          | done => simp [geomUpd]
          | other => simp [geomUpd]

theorem nameUpd_foldl (es : List OutputEvent) :
    ∀ acc : Option String,
      es.foldl nameUpd acc =
        match lastName es with
        | some q => some q
        | none => acc := by
  induction es with
  | nil => intro acc; simp [lastName]
  | cons e rest ih =>
      intro acc
      rw [List.foldl_cons, ih]
      have hR : lastName (e :: rest) =
          match lastName rest with
          | some q => some q
          | none => nameUpd none e := by
        rw [lastName, List.foldl_cons, ih]
      rw [hR]
      cases hL : lastName rest with
      | some q => simp
      | none =>
          cases e with
          | mode current w h => cases current <;> simp [nameUpd]
          | name n => simp [nameUpd]
          | done => simp [nameUpd]
          | other => simp [nameUpd]

theorem builder_foldl_width (es : List OutputEvent) :
    ∀ b : OutputBuilder,
      (es.foldl builderApply b).width =
        match lastGeometry es with
        | some q => q.1
        | none => b.width := by
  induction es with
  | nil => intro b; simp [lastGeometry]
  | cons e rest ih =>
      intro b
      rw [List.foldl_cons, ih]
      have hR : lastGeometry (e :: rest) =
          match lastGeometry rest with
          | some q => some q
          | none => geomUpd none e := by
        rw [lastGeometry, List.foldl_cons, geomUpd_foldl]
      rw [hR]
      cases hL : lastGeometry rest with
      | some q => simp
      | none =>
          cases e with
          | mode current w h => cases current <;> simp [geomUpd, builderApply]
          | name n => simp [geomUpd, builderApply]
          | done => simp [geomUpd, builderApply]
          | other => simp [geomUpd, builderApply]

theorem builder_foldl_height (es : List OutputEvent) :
    ∀ b : OutputBuilder,
      (es.foldl builderApply b).height =
        match lastGeometry es with
        | some q => q.2
        | none => b.height := by
  induction es with
  | nil => intro b; simp [lastGeometry]
  | cons e rest ih =>
      intro b
      rw [List.foldl_cons, ih]
      have hR : lastGeometry (e :: rest) =
          match lastGeometry rest with
          | some q => some q
          | none => geomUpd none e := by
        rw [lastGeometry, List.foldl_cons, geomUpd_foldl]
      rw [hR]
      cases hL : lastGeometry rest with
      | some q => simp
      | none =>
          cases e with
          | mode current w h => cases current <;> simp [geomUpd, builderApply]
          | name n => simp [geomUpd, builderApply]
          | done => simp [geomUpd, builderApply]
          | other => simp [geomUpd, builderApply]

theorem builder_foldl_name (es : List OutputEvent) :
    ∀ b : OutputBuilder,
      (es.foldl builderApply b).name =
        match lastName es with
        | some n => n
        | none => b.name := by
  induction es with
  | nil => intro b; simp [lastName]
  | cons e rest ih =>
      intro b
      rw [List.foldl_cons, ih]
      have hR : lastName (e :: rest) =
          match lastName rest with
          | some q => some q
          | none => nameUpd none e := by
        rw [lastName, List.foldl_cons, nameUpd_foldl]
      rw [hR]
      cases hL : lastName rest with
      | some q => simp
      | none =>
          cases e with
          | mode current w h => cases current <;> simp [nameUpd, builderApply]
          | name n => simp [nameUpd, builderApply]
          | done => simp [nameUpd, builderApply]
          | other => simp [nameUpd, builderApply]

theorem run_output_single (es : List OutputEvent) :
    ∀ (s : DState) (b : OutputBuilder),
      (∀ e ∈ es, e ≠ OutputEvent.done) →
      s.output_builders = [b] →
      run s (es.map (DEvent.output 0)) =
        some { s with output_builders := [es.foldl builderApply b] } := by
  induction es with
  | nil =>
      intro s b _ hb
      rw [List.foldl_nil, ← hb]
      rfl
  | cons e rest ih =>
      intro s b hnd hb
      have hstep : dstep s (DEvent.output 0 e) =
          some { s with output_builders := [builderApply b e] } := by
        have hne : e ≠ OutputEvent.done := hnd e (List.mem_cons_self e rest)
        cases e with
        | done => exact absurd rfl hne
        | mode current w h =>
            simp [dstep, outputDispatch, ensureBuilder, fetchIdx, hb, listModify]
        | name n =>
            simp [dstep, outputDispatch, ensureBuilder, fetchIdx, hb, listModify]
        | other =>
            simp [dstep, outputDispatch, ensureBuilder, fetchIdx, hb, listModify]
      have h1 : run s (DEvent.output 0 e :: rest.map (DEvent.output 0)) =
          run { s with output_builders := [builderApply b e] }
            (rest.map (DEvent.output 0)) := by
        rw [run, hstep]
      rw [List.map_cons, h1]
      exact ih { s with output_builders := [builderApply b e] } (builderApply b e)
        (fun x hx => hnd x (List.mem_cons_of_mem e hx)) rfl

theorem run_append_event (xs : List DEvent) :
    ∀ (ys : List DEvent) (s : DState),
      run s (xs ++ ys) = (run s xs).bind (fun s1 => run s1 ys) := by
  induction xs with
  | nil => intro ys s; simp [run]
  | cons x rest ih =>
      intro ys s
      rw [List.cons_append, run, run]
      cases hd : dstep s x with
      | none => simp
      | some s1 => simp [ih ys s1]

theorem setup_buffer_file_outputs (s : DState) :
    (setup_buffer_file s).outputs = s.outputs := by
  unfold setup_buffer_file
  cases hp : s.shm_pool_size <;> simp [hp]

theorem run_single_then_done (es : List OutputEvent)
    (hnd : ∀ e ∈ es, e ≠ OutputEvent.done) :
    (run initState (es.map (DEvent.output 0) ++ [DEvent.output 0 OutputEvent.done])).map
      (fun s => s.outputs) =
      some [(es.foldl builderApply OutputBuilder.default).build] := by
  cases es with
  | nil => rfl
  | cons e rest =>
      have hne : e ≠ OutputEvent.done := hnd e (List.mem_cons_self e rest)
      have hstep : dstep initState (DEvent.output 0 e) =
          some { initState with output_builders := [builderApply OutputBuilder.default e] } := by
        cases e with
        | done => exact absurd rfl hne
        | mode current w h =>
            simp [dstep, outputDispatch, ensureBuilder, fetchIdx, initState, listModify,
              OutputBuilder.default]
        | name n =>
            simp [dstep, outputDispatch, ensureBuilder, fetchIdx, initState, listModify,
              OutputBuilder.default]
        | other =>
            simp [dstep, outputDispatch, ensureBuilder, fetchIdx, initState, listModify,
              OutputBuilder.default]
      have h1 : run initState
            (DEvent.output 0 e ::
              (rest.map (DEvent.output 0) ++ [DEvent.output 0 OutputEvent.done])) =
          run { initState with output_builders := [builderApply OutputBuilder.default e] }
            (rest.map (DEvent.output 0) ++ [DEvent.output 0 OutputEvent.done]) := by
        rw [run, hstep]
      rw [List.map_cons, List.cons_append, h1]
      rw [run_append_event]
      rw [run_output_single rest
        { initState with output_builders := [builderApply OutputBuilder.default e] }
        (builderApply OutputBuilder.default e)
        (fun x hx => hnd x (List.mem_cons_of_mem e hx)) rfl]
      simp only [Option.bind_some]
      simp [run, dstep, outputDispatch, ensureBuilder, initState, setup_buffer_file,
        List.eraseIdx, List.foldl_cons]

/-! ## Claim C6: last-writer-wins descriptor accumulation -/

/-- C6: For any sequence of geometry and name notifications for one output
slot, in any interleaving and multiplicity, followed by that output's done
marker, the finalized record carries the last-written width, height and name
(and `pixel_count = width * height`), independent of arrival order. -/
theorem claim_C6 (es : List OutputEvent) (w h : Nat) (nm : String)
    (hnd : ∀ e ∈ es, e ≠ OutputEvent.done)
    (hg : lastGeometry es = some (w, h))
    (hn : lastName es = some nm) :
    (run initState (es.map (DEvent.output 0) ++ [DEvent.output 0 OutputEvent.done])).map
      (fun s => s.outputs) = some [⟨nm, w, h, w * h⟩] := by
  rw [run_single_then_done es hnd]
  have hw : (es.foldl builderApply OutputBuilder.default).width = w := by
    rw [builder_foldl_width es OutputBuilder.default, hg]
  have hh : (es.foldl builderApply OutputBuilder.default).height = h := by
    rw [builder_foldl_height es OutputBuilder.default, hg]
  have hnm : (es.foldl builderApply OutputBuilder.default).name = nm := by
    rw [builder_foldl_name es OutputBuilder.default, hn]
  rw [OutputBuilder.build, hw, hh, hnm]

/-- Witness for C6: name and geometry arrive interleaved and repeatedly
(name "B", a non-current mode 9x9, name "Z", current mode 4x5); the finalized
monitor carries the last-written values "Z", 4, 5. -/
theorem claim_C6_witness :
    (run initState
      ([OutputEvent.name "B", OutputEvent.mode false 9 9,
        OutputEvent.name "Z", OutputEvent.mode true 4 5].map (DEvent.output 0) ++
        [DEvent.output 0 OutputEvent.done])).map (fun s => s.outputs) =
      some [⟨"Z", 4, 5, 4 * 5⟩] :=
  claim_C6
    [OutputEvent.name "B", OutputEvent.mode false 9 9,
     OutputEvent.name "Z", OutputEvent.mode true 4 5]
    4 5 "Z" (by decide) (by rfl) (by rfl)

/-! ## Claim C4: finalization without geometry -/

/-- C4 counterexample: a done marker for a slot whose geometry was never
reported does not fail — `OutputBuilder::build` performs no `width > 0`,
`height > 0` check and there is no `IncompleteDescriptor` error anywhere; the
daemon finalizes a Monitor record with zero width, height and pixel count. -/
theorem claim_C4_counterexample :
    (run initState [DEvent.output 0 OutputEvent.done]).map (fun s => s.outputs) =
      some [⟨"", 0, 0, 0⟩] := by
  rfl

/-- C4 (amended): finalizing a monitor descriptor never fails: the done
handler unconditionally builds a Monitor record from whatever was
accumulated; when geometry was never reported it produces a record with
width 0, height 0 and pixel count 0 (registered as a zero-length region)
instead of failing with `IncompleteDescriptor`. -/
theorem claim_C4_amended (es : List OutputEvent)
    (hnd : ∀ e ∈ es, e ≠ OutputEvent.done)
    (hg : lastGeometry es = none) :
    (run initState (es.map (DEvent.output 0) ++ [DEvent.output 0 OutputEvent.done])).map
      (fun s => s.outputs.map (fun o => (o.width, o.height, o.pixel_count))) =
      some [(0, 0, 0)] := by
  have hbase := run_single_then_done es hnd
  have hw : (es.foldl builderApply OutputBuilder.default).width = 0 := by
    rw [builder_foldl_width es OutputBuilder.default, hg]
    rfl
  have hh : (es.foldl builderApply OutputBuilder.default).height = 0 := by
    rw [builder_foldl_height es OutputBuilder.default, hg]
    rfl
  cases hrun : run initState (es.map (DEvent.output 0) ++ [DEvent.output 0 OutputEvent.done]) with
  | none => rw [hrun] at hbase; simp at hbase
  | some s =>
      rw [hrun] at hbase
      have hout : s.outputs = [(es.foldl builderApply OutputBuilder.default).build] := by
        simpa using hbase
      simp [hout, OutputBuilder.build, hw, hh]

/-- Witness for C4 (amended): only a name and a non-current mode arrive, then
done; the finalized record has zero geometry and no error occurs. -/
theorem claim_C4_witness :
    (run initState
      ([OutputEvent.name "C", OutputEvent.mode false 7 7].map (DEvent.output 0) ++
        [DEvent.output 0 OutputEvent.done])).map
      (fun s => s.outputs.map (fun o => (o.width, o.height, o.pixel_count))) =
      some [(0, 0, 0)] :=
  claim_C4_amended [OutputEvent.name "C", OutputEvent.mode false 7 7]
    (by decide) (by rfl)

/-! ## Claim C2: the configure barrier miscounts duplicate acknowledgments -/

/-- C2 exhibits the raw-counter bug: with two surfaces "A" and "B" registered,
two configure acknowledgments from surface "A" alone drive the raw counter
`surface_configured` to 2 = number of surfaces, so the barrier releases
(`releases = 1`, a `setup_buffers` compositing pass is triggered) even though
surface "B" (present in `surfaces`) never acknowledged (`acked = ["A", "A"]`
and "B" is not among the acknowledgers).  This contradicts the claim that a
release never happens while some surface has not yet configured. -/
theorem claim_C2 :
    (run initState
      [DEvent.output 0 (OutputEvent.name "A"),
       DEvent.output 0 (OutputEvent.mode true 1 1),
       DEvent.output 0 OutputEvent.done,
       DEvent.output 0 (OutputEvent.name "B"),
       DEvent.output 0 (OutputEvent.mode true 1 1),
       DEvent.output 0 OutputEvent.done,
       DEvent.configureAck "A",
       DEvent.configureAck "A"]).map
      (fun s => (s.releases, s.surface_configured, s.surfaces, s.acked)) =
      some (1, 2, ["A", "B"], ["A", "A"]) ∧
    ("B" : String) ∉ (["A", "A"] : List String) :=
  ⟨by rfl, by decide⟩

/-! ## Claim C3: a decode error aborts the whole compositing pass -/

/-- C3 counterexample: two monitors "A" and "B"; "A" has a configured
background whose open/decode fails (`fs` returns `none`), "B" has no entry.
The claim says the engine falls back to solid fill for "A" and still writes
"B"'s region (6 bytes in total would be written).  The code instead aborts
the pass via `?`: the result carries an error and no bytes at all were
written — neither "A"'s solid fill nor "B"'s region. -/
theorem claim_C3_counterexample :
    (draw_all (fun _ => none) [("A", ⟨some "bad.png", Mode.Fill⟩)]
      [⟨"A", 1, 1, 1⟩, ⟨"B", 1, 1, 1⟩]).2.isSome = true ∧
    (draw_all (fun _ => none) [("A", ⟨some "bad.png", Mode.Fill⟩)]
      [⟨"A", 1, 1, 1⟩, ⟨"B", 1, 1, 1⟩]).1 = [] :=
  ⟨by rfl, by rfl⟩

theorem drawLoop_error (fs : String → Option Img)
    (prefs : List (String × OutputPreferences)) :
    ∀ (l1 : List Output) (o : Output) (l2 : List Output) (e : String)
      (acc : List Nat),
      (∀ x ∈ l1, (paintOutput fs prefs x).isOk = true) →
      paintOutput fs prefs o = Except.error e →
      drawLoop fs prefs (l1 ++ o :: l2) acc =
        (acc ++ (l1.map (fun x => (paintOutput fs prefs x).toOption.getD [])).flatten,
          some e) := by
  intro l1
  induction l1 with
  | nil =>
      intro o l2 e acc _ herr
      simp [drawLoop, herr]
  | cons x rest ih =>
      intro o l2 e acc hok herr
      have hx : (paintOutput fs prefs x).isOk = true :=
        hok x (List.mem_cons_self x rest)
      obtain ⟨bs, hbs⟩ : ∃ bs, paintOutput fs prefs x = Except.ok bs := by
        cases hpx : paintOutput fs prefs x with
        | ok bs => exact ⟨bs, rfl⟩
        | error err =>
            rw [hpx] at hx
            exact absurd hx (by simp [Except.isOk, Except.toBool])
      rw [List.cons_append, drawLoop, hbs]
      show drawLoop fs prefs (rest ++ o :: l2) (acc ++ bs) = _
      rw [ih o l2 e (acc ++ bs) (fun y hy => hok y (List.mem_cons_of_mem x hy)) herr]
      simp [hbs, Except.toOption, List.append_assoc]

/-- C3 (amended): an image open/decode error for one monitor aborts the rest
of the compositing pass (the source propagates it with `?`): monitors earlier
in arrival order have already been written, but the failing monitor gets no
solid-fill fallback and no later monitor's region is written in that pass.
Solid fill is used only for monitors with no configured background. -/
theorem claim_C3_amended (fs : String → Option Img)
    (prefs : List (String × OutputPreferences)) (l1 : List Output) (o : Output)
    (l2 : List Output) (e : String)
    (hok : ∀ x ∈ l1, (paintOutput fs prefs x).isOk = true)
    (herr : paintOutput fs prefs o = Except.error e) :
    draw_all fs prefs (l1 ++ o :: l2) =
      ((l1.map (fun x => (paintOutput fs prefs x).toOption.getD [])).flatten,
        some e) := by
  rw [draw_all, drawLoop_error fs prefs l1 o l2 e [] hok herr]
  simp

/-- Witness for C3 (amended): monitor "B" (background "ok.png", stretch mode)
paints fine, monitor "A"'s background "bad.png" fails to decode, monitor "C"
follows; the pass stops with the error after writing only "B"'s bytes. -/
theorem claim_C3_witness :
    draw_all
      (fun p => if p = "ok.png" then some ⟨1, 1, [⟨5, 6, 7⟩]⟩ else none)
      [("A", ⟨some "bad.png", Mode.Fill⟩), ("B", ⟨some "ok.png", Mode.Stretch⟩)]
      ([⟨"B", 1, 1, 1⟩] ++ ⟨"A", 1, 1, 1⟩ :: [⟨"C", 1, 1, 1⟩]) =
      (([(⟨"B", 1, 1, 1⟩ : Output)].map
        (fun x => (paintOutput
          (fun p => if p = "ok.png" then some ⟨1, 1, [⟨5, 6, 7⟩]⟩ else none)
          [("A", ⟨some "bad.png", Mode.Fill⟩), ("B", ⟨some "ok.png", Mode.Stretch⟩)]
          x).toOption.getD [])).flatten,
        some "image open or decode error") :=
  claim_C3_amended
    (fun p => if p = "ok.png" then some ⟨1, 1, [⟨5, 6, 7⟩]⟩ else none)
    [("A", ⟨some "bad.png", Mode.Fill⟩), ("B", ⟨some "ok.png", Mode.Stretch⟩)]
    [⟨"B", 1, 1, 1⟩] ⟨"A", 1, 1, 1⟩ [⟨"C", 1, 1, 1⟩]
    "image open or decode error"
    (by decide) (by rfl)

/-! ## Claim C5: byte count and channel order of a painted region -/

theorem toRgb8Raw_length (ps : List Pixel) :
    (ps.flatMap (fun p => [p.r, p.g, p.b])).length = 3 * ps.length := by
  induction ps with
  | nil => simp
  | cons p rest ih => simp [ih]; ring

theorem toRgb8Raw_stride (ps : List Pixel) :
    ∀ i, i < ps.length →
      ((ps.flatMap (fun p => [p.r, p.g, p.b])).drop (3 * i)).take 3 =
        [(ps.getD i ⟨0, 0, 0⟩).r, (ps.getD i ⟨0, 0, 0⟩).g, (ps.getD i ⟨0, 0, 0⟩).b] := by
  induction ps with
  | nil => intro i hi; simp at hi
  | cons p rest ih =>
      intro i hi
      cases i with
      | zero => simp
      | succ j =>
          have hj : j < rest.length := by simpa using hi
          have h3 : 3 * (j + 1) = 3 * j + 1 + 1 + 1 := by ring
          have hL : (p :: rest).flatMap (fun p => [p.r, p.g, p.b]) =
              p.r :: p.g :: p.b :: rest.flatMap (fun p => [p.r, p.g, p.b]) := rfl
          rw [hL, h3, List.drop_succ_cons, List.drop_succ_cons, List.drop_succ_cons,
            ih j hj]
          simp

theorem range_grid_length {α : Type} (w h : Nat) (f : Nat → Nat → α) :
    ((List.range h).flatMap (fun y => (List.range w).map (fun x => f x y))).length =
      w * h := by
  induction h with
  | zero => simp
  | succ k ih =>
      rw [List.range_succ]
      simp only [List.flatMap_append, List.length_append, ih]
      simp [Nat.mul_succ]

theorem apply_image_mode_dims (img : Img) (mode : Mode) (w h : Nat) (img' : Img)
    (happ : apply_image_mode img mode w h = some img') :
    img'.width = w ∧ img'.height = h ∧ img'.pixels.length = w * h := by
  cases mode with
  | Fill =>
      simp only [apply_image_mode, Option.some.injEq] at happ
      subst happ
      exact ⟨rfl, rfl, range_grid_length w h (fun x y => fillSample img w h x y)⟩
  | Center => simp [apply_image_mode] at happ
  | Stretch =>
      simp only [apply_image_mode, Option.some.injEq] at happ
      subst happ
      refine ⟨rfl, rfl, ?_⟩
      unfold resize_exact resizePixels
      exact range_grid_length w h _
  | Fit =>
      simp only [apply_image_mode, copy_from] at happ
      by_cases hc : (w - (resize img w h).width) / 2 + (resize img w h).width ≤ w ∧
          (h - (resize img w h).height) / 2 + (resize img w h).height ≤ h
      · rw [if_pos (by exact_mod_cast hc)] at happ
        simp only [Option.some.injEq] at happ
        subst happ
        exact ⟨rfl, rfl, range_grid_length w h _⟩
      · rw [if_neg (by exact_mod_cast hc)] at happ
        exact absurd happ (by simp)

/-- C5 counterexample: a constant-colour source pixel (r=10, g=20, b=30)
stretched onto a 1x1 monitor is written as the bytes `[10, 20, 30]` — red,
green, blue — not `[30, 20, 10]` as the claimed "blue, green, red order"
would require (the `Bgr888` format's little-endian B:G:R packing puts the
red byte first in memory, and `to_rgb8().as_raw()` produces exactly that). -/
theorem claim_C5_counterexample :
    write_image ⟨2, 2, List.replicate 4 ⟨10, 20, 30⟩⟩ Mode.Stretch 1 1 =
      some [10, 20, 30] ∧
    ([10, 20, 30] : List Nat) ≠ [30, 20, 10] :=
  ⟨by rfl, by decide⟩

theorem write_default_color_length (o : Output) :
    (write_default_color o).length = o.pixel_count * 3 := by
  rw [write_default_color, foldl_append_repeat]
  simp [flatten_replicate_zeros]

theorem write_image_some_length (img : Img) (mode : Mode) (w h : Nat)
    (bytes : List Nat) (hwi : write_image img mode w h = some bytes) :
    bytes.length = w * h * 3 := by
  cases ha : apply_image_mode img mode w h with
  | none => rw [write_image, ha] at hwi; exact absurd hwi (by simp)
  | some img2 =>
      rw [write_image, ha] at hwi
      simp only [Option.map_some'] at hwi
      have hb : Img.toRgb8Raw img2 = bytes := Option.some.inj hwi
      obtain ⟨_, _, hlen⟩ := apply_image_mode_dims img mode w h img2 ha
      rw [← hb, Img.toRgb8Raw, toRgb8Raw_length, hlen]
      ring

theorem paintOutput_ok_length (fs : String → Option Img)
    (prefs : List (String × OutputPreferences)) (x : Output)
    (hpc : x.pixel_count = x.width * x.height) (bs : List Nat)
    (hok : paintOutput fs prefs x = Except.ok bs) :
    bs.length = x.pixel_count * 3 := by
  unfold paintOutput at hok
  cases hg : hmGet prefs x.name with
  | none =>
      simp only [hg, Except.ok.injEq] at hok
      rw [← hok]
      exact write_default_color_length x
  | some pr =>
      simp only [hg] at hok
      cases hb : pr.background with
      | none =>
          simp only [hb, Except.ok.injEq] at hok
          rw [← hok]
          exact write_default_color_length x
      | some bg =>
          simp only [hb] at hok
          cases hf : fs bg with
          | none => simp only [hf] at hok; exact absurd hok (by simp)
          | some img =>
              simp only [hf] at hok
              cases hw : write_image img pr.mode x.width x.height with
              | none => simp only [hw] at hok; exact absurd hok (by simp)
              | some bytes =>
                  simp only [hw, Except.ok.injEq] at hok
                  rw [← hok, write_image_some_length img pr.mode x.width x.height bytes hw,
                    hpc]

theorem drawLoop_ok_run (fs : String → Option Img)
    (prefs : List (String × OutputPreferences)) :
    ∀ (l1 rest : List Output) (acc : List Nat),
      (∀ x ∈ l1, (paintOutput fs prefs x).isOk = true) →
      drawLoop fs prefs (l1 ++ rest) acc =
        drawLoop fs prefs rest
          (acc ++ (l1.map (fun x => (paintOutput fs prefs x).toOption.getD [])).flatten) := by
  intro l1
  induction l1 with
  | nil => intro rest acc _; simp
  | cons x l1 ih =>
      intro rest acc hok
      have hx : (paintOutput fs prefs x).isOk = true :=
        hok x (List.mem_cons_self x l1)
      obtain ⟨bs, hbs⟩ : ∃ bs, paintOutput fs prefs x = Except.ok bs := by
        cases hpx : paintOutput fs prefs x with
        | ok bs => exact ⟨bs, rfl⟩
        | error err =>
            rw [hpx] at hx
            exact absurd hx (by simp [Except.isOk, Except.toBool])
      rw [List.cons_append, drawLoop, hbs]
      show drawLoop fs prefs (l1 ++ rest) (acc ++ bs) = _
      rw [ih rest (acc ++ bs) (fun y hy => hok y (List.mem_cons_of_mem x hy))]
      simp [hbs, Except.toOption, List.append_assoc]

theorem drawLoop_extends_acc (fs : String → Option Img)
    (prefs : List (String × OutputPreferences)) :
    ∀ (l : List Output) (acc : List Nat),
      ∃ suffix, (drawLoop fs prefs l acc).1 = acc ++ suffix := by
  intro l
  induction l with
  | nil => intro acc; exact ⟨[], by simp [drawLoop]⟩
  | cons x l ih =>
      intro acc
      cases hp : paintOutput fs prefs x with
      | ok bs =>
          obtain ⟨suffix, hs⟩ := ih (acc ++ bs)
          refine ⟨bs ++ suffix, ?_⟩
          rw [drawLoop, hp]
          show (drawLoop fs prefs l (acc ++ bs)).1 = _
          rw [hs, List.append_assoc]
      | error e =>
          refine ⟨[], ?_⟩
          rw [drawLoop, hp]
          simp

theorem flatten_ok_length (fs : String → Option Img)
    (prefs : List (String × OutputPreferences)) :
    ∀ l1 : List Output,
      (∀ x ∈ l1, (paintOutput fs prefs x).isOk = true) →
      (∀ x ∈ l1, x.pixel_count = x.width * x.height) →
      ((l1.map (fun x => (paintOutput fs prefs x).toOption.getD [])).flatten).length =
        (l1.map (fun x => x.pixel_count * 3)).sum := by
  intro l1
  induction l1 with
  | nil => intro _ _; simp
  | cons x l1 ih =>
      intro hok hpc
      have hx : (paintOutput fs prefs x).isOk = true :=
        hok x (List.mem_cons_self x l1)
      obtain ⟨bs, hbs⟩ : ∃ bs, paintOutput fs prefs x = Except.ok bs := by
        cases hpx : paintOutput fs prefs x with
        | ok bs => exact ⟨bs, rfl⟩
        | error err =>
            rw [hpx] at hx
            exact absurd hx (by simp [Except.isOk, Except.toBool])
      have hlen : bs.length = x.pixel_count * 3 :=
        paintOutput_ok_length fs prefs x (hpc x (List.mem_cons_self x l1)) bs hbs
      simp only [List.map_cons, List.flatten_cons, List.length_append, List.sum_cons]
      rw [ih (fun y hy => hok y (List.mem_cons_of_mem x hy))
        (fun y hy => hpc y (List.mem_cons_of_mem x hy))]
      simp [hbs, Except.toOption, hlen]

/-- C5 (amended): for every monitor painted successfully from its background
image in a compositing pass, exactly `region.byte_length = width * height * 3`
bytes are produced, three bytes per pixel in red, green, blue byte order (the
in-memory layout of the `Bgr888` format declared to the compositor),
row-major with no stride padding, and the bytes are written starting at the
monitor's region byte offset: in the pass over `l1 ++ o :: l2` they occupy
the slice beginning at the sum of the byte lengths of the earlier monitors'
regions, which is exactly the `byte_offset` of the region `setup_buffers`
assigns to this monitor. -/
theorem claim_C5_amended (fs : String → Option Img)
    (prefs : List (String × OutputPreferences)) (l1 l2 : List Output)
    (o : Output) (bg : String) (mode : Mode) (img img' : Img)
    (hpref : hmGet prefs o.name = some ⟨some bg, mode⟩)
    (hfs : fs bg = some img)
    (happ : apply_image_mode img mode o.width o.height = some img')
    (hpco : o.pixel_count = o.width * o.height)
    (hok : ∀ x ∈ l1, (paintOutput fs prefs x).isOk = true)
    (hpc : ∀ x ∈ l1, x.pixel_count = x.width * x.height) :
    write_image img mode o.width o.height = some (Img.toRgb8Raw img') ∧
    paintOutput fs prefs o = Except.ok (Img.toRgb8Raw img') ∧
    (Img.toRgb8Raw img').length = o.width * o.height * 3 ∧
    img'.width = o.width ∧ img'.height = o.height ∧
    img'.pixels.length = o.width * o.height ∧
    (∀ i, i < o.width * o.height →
      ((Img.toRgb8Raw img').drop (3 * i)).take 3 =
        [(img'.pixels.getD i ⟨0, 0, 0⟩).r, (img'.pixels.getD i ⟨0, 0, 0⟩).g,
         (img'.pixels.getD i ⟨0, 0, 0⟩).b]) ∧
    (setup_buffers_regions (l1 ++ o :: l2)).get? l1.length =
      some ⟨o.name, (l1.map (fun x => x.pixel_count * 3)).sum, o.pixel_count * 3⟩ ∧
    o.pixel_count * 3 = o.width * o.height * 3 ∧
    ((drawLoop fs prefs (l1 ++ o :: l2) []).1.drop
        ((l1.map (fun x => x.pixel_count * 3)).sum)).take (o.pixel_count * 3) =
      Img.toRgb8Raw img' := by
  obtain ⟨hw, hh, hlen⟩ := apply_image_mode_dims img mode o.width o.height img' happ
  have hwi : write_image img mode o.width o.height = some (Img.toRgb8Raw img') := by
    rw [write_image, happ]; rfl
  have hpo : paintOutput fs prefs o = Except.ok (Img.toRgb8Raw img') := by
    simp [paintOutput, hpref, hfs, hwi]
  have hblen : (Img.toRgb8Raw img').length = o.width * o.height * 3 := by
    rw [Img.toRgb8Raw, toRgb8Raw_length, hlen]
    ring
  have hstride : ∀ i, i < o.width * o.height →
      ((Img.toRgb8Raw img').drop (3 * i)).take 3 =
        [(img'.pixels.getD i ⟨0, 0, 0⟩).r, (img'.pixels.getD i ⟨0, 0, 0⟩).g,
         (img'.pixels.getD i ⟨0, 0, 0⟩).b] := by
    intro i hi
    exact toRgb8Raw_stride img'.pixels i (by rw [hlen]; exact hi)
  have hregion : (setup_buffers_regions (l1 ++ o :: l2)).get? l1.length =
      some ⟨o.name, (l1.map (fun x => x.pixel_count * 3)).sum, o.pixel_count * 3⟩ := by
    have hlt : l1.length < (l1 ++ o :: l2).length := by simp
    obtain ⟨o2, ho2, hr⟩ := regionsFrom_get (l1 ++ o :: l2) 0 l1.length hlt
    have hoo : (l1 ++ o :: l2).get? l1.length = some o := by
      rw [List.get?_append_right (Nat.le_refl _)]
      simp
    rw [hoo] at ho2
    obtain rfl : o = o2 := Option.some.inj ho2
    rw [setup_buffers_regions, hr, List.take_left]
    simp
  set pre := (l1.map (fun x => (paintOutput fs prefs x).toOption.getD [])).flatten
    with hpre_def
  have hpre : pre.length = (l1.map (fun x => x.pixel_count * 3)).sum :=
    flatten_ok_length fs prefs l1 hok hpc
  have hdl : drawLoop fs prefs (l1 ++ o :: l2) [] =
      drawLoop fs prefs l2 (pre ++ Img.toRgb8Raw img') := by
    rw [drawLoop_ok_run fs prefs l1 (o :: l2) [] hok]
    rw [List.nil_append, drawLoop, hpo]
  obtain ⟨suffix, hsuf⟩ :=
    drawLoop_extends_acc fs prefs l2 (pre ++ Img.toRgb8Raw img')
  have hplace : ((drawLoop fs prefs (l1 ++ o :: l2) []).1.drop
      ((l1.map (fun x => x.pixel_count * 3)).sum)).take (o.pixel_count * 3) =
      Img.toRgb8Raw img' := by
    rw [hdl, hsuf, List.append_assoc, ← hpre, List.drop_left]
    have hblen2 : (Img.toRgb8Raw img').length = o.pixel_count * 3 := by
      rw [hblen, hpco]
    rw [← hblen2, List.take_left]
  exact ⟨hwi, hpo, hblen, hw, hh, hlen, hstride, hregion, by rw [hpco], hplace⟩

/-- Witness for C5 (amended): monitor "B" (1x1, pixel (r=9, g=8, b=7),
stretch mode) painted after monitor "A" (1x1, solid fill) and before "C":
its 3 bytes `[9, 8, 7]` land exactly at its region's byte offset 3. -/
theorem claim_C5_witness :
    write_image ⟨1, 1, [⟨9, 8, 7⟩]⟩ Mode.Stretch 1 1 =
      some (Img.toRgb8Raw ⟨1, 1, [⟨9, 8, 7⟩]⟩) ∧
    paintOutput (fun p => if p = "img.png" then some ⟨1, 1, [⟨9, 8, 7⟩]⟩ else none)
      [("B", ⟨some "img.png", Mode.Stretch⟩)] ⟨"B", 1, 1, 1⟩ =
      Except.ok (Img.toRgb8Raw ⟨1, 1, [⟨9, 8, 7⟩]⟩) ∧
    (Img.toRgb8Raw ⟨1, 1, [⟨9, 8, 7⟩]⟩).length = 1 * 1 * 3 ∧
    (⟨1, 1, [⟨9, 8, 7⟩]⟩ : Img).width = 1 ∧ (⟨1, 1, [⟨9, 8, 7⟩]⟩ : Img).height = 1 ∧
    (⟨1, 1, [⟨9, 8, 7⟩]⟩ : Img).pixels.length = 1 * 1 ∧
    (∀ i, i < 1 * 1 →
      ((Img.toRgb8Raw ⟨1, 1, [⟨9, 8, 7⟩]⟩).drop (3 * i)).take 3 =
        [((⟨1, 1, [⟨9, 8, 7⟩]⟩ : Img).pixels.getD i ⟨0, 0, 0⟩).r,
         ((⟨1, 1, [⟨9, 8, 7⟩]⟩ : Img).pixels.getD i ⟨0, 0, 0⟩).g,
         ((⟨1, 1, [⟨9, 8, 7⟩]⟩ : Img).pixels.getD i ⟨0, 0, 0⟩).b]) ∧
    (setup_buffers_regions
      ([⟨"A", 1, 1, 1⟩] ++ (⟨"B", 1, 1, 1⟩ : Output) :: [⟨"C", 1, 1, 1⟩])).get?
        ([(⟨"A", 1, 1, 1⟩ : Output)].length) =
      some ⟨(⟨"B", 1, 1, 1⟩ : Output).name,
        ([(⟨"A", 1, 1, 1⟩ : Output)].map (fun x => x.pixel_count * 3)).sum,
        (⟨"B", 1, 1, 1⟩ : Output).pixel_count * 3⟩ ∧
    (⟨"B", 1, 1, 1⟩ : Output).pixel_count * 3 = 1 * 1 * 3 ∧
    ((drawLoop (fun p => if p = "img.png" then some ⟨1, 1, [⟨9, 8, 7⟩]⟩ else none)
        [("B", ⟨some "img.png", Mode.Stretch⟩)]
        ([⟨"A", 1, 1, 1⟩] ++ (⟨"B", 1, 1, 1⟩ : Output) :: [⟨"C", 1, 1, 1⟩]) []).1.drop
        (([(⟨"A", 1, 1, 1⟩ : Output)].map (fun x => x.pixel_count * 3)).sum)).take
        ((⟨"B", 1, 1, 1⟩ : Output).pixel_count * 3) =
      Img.toRgb8Raw ⟨1, 1, [⟨9, 8, 7⟩]⟩ :=
  claim_C5_amended
    (fun p => if p = "img.png" then some ⟨1, 1, [⟨9, 8, 7⟩]⟩ else none)
    [("B", ⟨some "img.png", Mode.Stretch⟩)]
    [⟨"A", 1, 1, 1⟩] [⟨"C", 1, 1, 1⟩] ⟨"B", 1, 1, 1⟩ "img.png" Mode.Stretch
    ⟨1, 1, [⟨9, 8, 7⟩]⟩ ⟨1, 1, [⟨9, 8, 7⟩]⟩
    (by rfl) (by rfl) (by rfl) (by rfl) (by decide) (by decide)

/-! ## Claim C7: failed reload keeps the last-good preferences but panics -/

/-- C7: When re-reading the configuration fails, `Config::reload` returns the
error before touching `output_preferences`, so the in-memory preferences are
exactly the previous mapping (no partial overwrite) and an error is
signalled.  However, the failure is not non-fatal: the receiver thread runs
`handle(event).unwrap()`, so the propagated reload error makes that thread
panic (`receiverStep` evaluates to `none`), contradicting the "non-fatal to
the running process" part of the claim. -/
theorem claim_C7 (loadFile : String → Option (List IniSection))
    (fs : String → Option Img) (outputs : List Output) (c : Config) (p : String)
    (hp : c.config_path = some p) (hload : loadFile p = none) :
    (Config.reload loadFile c).1 = c ∧
    (Config.reload loadFile c).2.isSome = true ∧
    receiverStep loadFile fs outputs c AppEvent.ConfigChanged = none := by
  refine ⟨?_, ?_, ?_⟩
  · simp [Config.reload, hp, hload]
  · simp [Config.reload, hp, hload]
  · simp [receiverStep, State.handle, Config.reload, hp, hload, Except.toOption]

/-- Witness for C7: a config at path "waypaper.ini" whose re-read fails; the
previous preferences survive untouched and the receiver thread panics. -/
theorem claim_C7_witness :
    (Config.reload (fun _ => none)
      ⟨some "waypaper.ini", some [("A", ⟨none, Mode.Fill⟩)]⟩).1 =
      ⟨some "waypaper.ini", some [("A", ⟨none, Mode.Fill⟩)]⟩ ∧
    (Config.reload (fun _ => none)
      ⟨some "waypaper.ini", some [("A", ⟨none, Mode.Fill⟩)]⟩).2.isSome = true ∧
    receiverStep (fun _ => none) (fun _ => none) []
      ⟨some "waypaper.ini", some [("A", ⟨none, Mode.Fill⟩)]⟩
      AppEvent.ConfigChanged = none :=
  claim_C7 (fun _ => none) (fun _ => none) []
    ⟨some "waypaper.ini", some [("A", ⟨none, Mode.Fill⟩)]⟩ "waypaper.ini"
    (by rfl) (by rfl)

end Waypaper
